import Mathlib

/-!
Verification development for the SIL optimizer core: a shallow embedding of
`lib/SILPasses/Utils/SILInliner.cpp` (function inliner and inline-cost model)
and `lib/SILPasses/SILCombinerVisitors.cpp` (peephole combiner rules), with
theorems settling the specification claims about them.

Machine integers (`unsigned`) are modelled as `Nat` with an explicit
`% 2 ^ 32` where the source can overflow.  Debug metadata (source locations,
debug scopes, the inlined-function reference count) carried by the source is
not observable by any claim and is not modelled.  C `assert` failures and
undefined behaviour (null dereference, out-of-range operand access) are
modelled as `Except.error ()`.
-/

namespace SILInliner

/-- Calling conventions of `AbstractCC`; the inliner only distinguishes the
foreign ones (`C`, `ObjCMethod`) from the rest. -/
inductive AbstractCC where
  | freestanding
  | method
  | witnessMethod
  | objCMethod
  | c
deriving DecidableEq, Repr

inductive InlineKind where
  | mandatoryInline
  | performanceInline
deriving DecidableEq, Repr

/-- A SIL instruction in SSA form: the id of its result value, an abstract
opcode tag (preserved by cloning), and the ids of its operand values. -/
structure SInst where
  res : Nat
  opcode : Nat
  operands : List Nat
deriving DecidableEq, Repr

/-- Basic-block terminators used by the inliner. -/
inductive STerm where
  | ret (v : Nat)
  | br (dest : Nat) (args : List Nat)
  | condBr (cond : Nat) (trueDest : Nat) (trueArgs : List Nat)
      (falseDest : Nat) (falseArgs : List Nat)
  | autoreleaseReturn (v : Nat)
  | unreachable
deriving DecidableEq, Repr

/-- A basic block: parameter value ids, non-terminator instructions in order,
and exactly one terminator. -/
structure SBlock where
  params : List Nat
  insts : List SInst
  term : STerm
deriving DecidableEq, Repr

/-- A SIL function: identity, calling convention, and blocks keyed by block id
(the first entry is the entry block).  Branch targets reference block ids, so
block order is immaterial to the semantics, as with pointers in the source. -/
structure Fn where
  name : Nat
  cc : AbstractCC
  blocks : List (Nat × SBlock)
deriving DecidableEq, Repr

/-- Association-list lookup used for the cloner's `ValueMap` and `BBMap`. -/
def lookupId (m : List (Nat × Nat)) (k : Nat) : Option Nat :=
  (m.find? (fun p => p.1 == k)).map (fun p => p.2)

/-- `SILCloner::remapValue`: values present in the map are remapped, all other
values map to themselves. -/
def remapValue (vm : List (Nat × Nat)) (v : Nat) : Nat :=
  (lookupId vm v).getD v

/-- Clone a list of non-terminator instructions (the body of the callee entry
block): each clone gets a fresh result id from the counter, its operands are
remapped through the value map, and the map is extended with
original-result to new-result. -/
def cloneInsts : List SInst → List (Nat × Nat) → Nat →
    (List SInst × List (Nat × Nat) × Nat)
  | [], vm, ctr => ([], vm, ctr)
  | inst :: rest, vm, ctr =>
    let newInst : SInst := ⟨ctr, inst.opcode, inst.operands.map (remapValue vm)⟩
    let (tail, vm2, ctr2) := cloneInsts rest ((inst.res, ctr) :: vm) (ctr + 1)
    (newInst :: tail, vm2, ctr2)

def substId (old new v : Nat) : Nat := if v == old then new else v

def substInst (old new : Nat) (I : SInst) : SInst :=
  ⟨I.res, I.opcode, I.operands.map (substId old new)⟩

def substTerm (old new : Nat) : STerm → STerm
  | .ret v => .ret (substId old new v)
  | .br d args => .br d (args.map (substId old new))
  | .condBr c t ta f fa =>
      .condBr (substId old new c) t (ta.map (substId old new))
        f (fa.map (substId old new))
  | .autoreleaseReturn v => .autoreleaseReturn (substId old new v)
  | .unreachable => .unreachable

def substBlock (old new : Nat) (blk : SBlock) : SBlock :=
  ⟨blk.params, blk.insts.map (substInst old new), substTerm old new blk.term⟩

/-- `SILValue::replaceAllUsesWith`: redirect every operand edge pointing at
`old` to point at `new`, across the whole function. -/
def substFn (old new : Nat) (f : Fn) : Fn :=
  { f with blocks := f.blocks.map (fun p => (p.1, substBlock old new p.2)) }

def findBlock (f : Fn) (b : Nat) : Option SBlock :=
  (f.blocks.find? (fun p => p.1 == b)).map (fun p => p.2)

def updateFn (f : Fn) (b : Nat) (g : SBlock → SBlock) : Fn :=
  { f with blocks := f.blocks.map (fun p => if p.1 == b then (p.1, g p.2) else p) }

def termUses (v : Nat) : STerm → Bool
  | .ret x => x == v
  | .br _ args => args.contains v
  | .condBr c _ ta _ fa => c == v || ta.contains v || fa.contains v
  | .autoreleaseReturn x => x == v
  | .unreachable => false

def blockUses (v : Nat) (blk : SBlock) : Bool :=
  blk.insts.any (fun I => I.operands.contains v) || termUses v blk.term

/-- True when some operand edge of the function points at value `v`. -/
def fnUsesValue (f : Fn) (v : Nat) : Bool :=
  f.blocks.any (fun p => blockUses v p.2)

/-- The caller produced by the fast path of `SILInliner::inlineFunction`
(callee entry block terminates in a return): the cloned entry-block body is
inserted immediately after the apply, all uses of the apply are redirected to
`w` (the remapped return operand), and the apply (at index `i`) is erased.
The caller block is not split. -/
def fastPathResult (caller : Fn) (b i : Nat) (aiRes : Nat)
    (cloned : List SInst) (w : Nat) : Fn :=
  let F1 := updateFn caller b
    (fun blk => ⟨blk.params, blk.insts.take (i + 1) ++ cloned ++ blk.insts.drop (i + 1),
      blk.term⟩)
  let F2 := substFn aiRes w F1
  updateFn F2 b (fun blk => ⟨blk.params, blk.insts.eraseIdx i, blk.term⟩)

/-- Pass of the cloner that assigns fresh ids for a list of original value
ids, extending the value map. -/
def allocIds : List Nat → List (Nat × Nat) → Nat → (List (Nat × Nat) × Nat)
  | [], vm, ctr => (vm, ctr)
  | v :: rest, vm, ctr => allocIds rest ((v, ctr) :: vm) (ctr + 1)

/-- For each callee block other than the entry: allocate a fresh caller block
id (the `BBMap`) and fresh ids for its parameters and instruction results
(the `ValueMap`).  The entry block is deliberately absent from the block map,
as the source seeds `BBMap[entry] = null`. -/
def allocBlocks : List (Nat × SBlock) → List (Nat × Nat) → List (Nat × Nat) → Nat →
    (List (Nat × Nat) × List (Nat × Nat) × Nat)
  | [], bm, vm, ctr => (bm, vm, ctr)
  | (cid, blk) :: rest, bm, vm, ctr =>
    let (vm1, ctr1) := allocIds blk.params vm (ctr + 1)
    let (vm2, ctr2) := allocIds (blk.insts.map (fun I => I.res)) vm1 ctr1
    allocBlocks rest ((cid, ctr) :: bm) vm2 ctr2

/-- Normal terminator cloning (`SILCloner::visit` on a terminator): values are
remapped through the value map, branch destinations through the block map.  A
branch whose destination has no mapping (a branch back to the suppressed entry
block) is invalid, as in the source. -/
def cloneTermNormal (vm bm : List (Nat × Nat)) : STerm → Except Unit STerm
  | .ret v => .ok (.ret (remapValue vm v))
  | .br d args =>
      match lookupId bm d with
      | some nd => .ok (.br nd (args.map (remapValue vm)))
      | none => .error ()
  | .condBr c t ta f fa =>
      match lookupId bm t, lookupId bm f with
      | some nt, some nf =>
          .ok (.condBr (remapValue vm c) nt (ta.map (remapValue vm))
            nf (fa.map (remapValue vm)))
      | _, _ => .error ()
  | .autoreleaseReturn v => .ok (.autoreleaseReturn (remapValue vm v))
  | .unreachable => .ok .unreachable

/-- Terminator fixup for cloned non-entry callee blocks: `return` becomes a
branch to the return-to block carrying the remapped value;
`autorelease_return` is forbidden (asserted) during inlining. -/
def cloneBlockTerm (vm bm : List (Nat × Nat)) (retToId : Nat) :
    STerm → Except Unit STerm
  | .ret v => .ok (.br retToId [remapValue vm v])
  | .autoreleaseReturn _ => .error ()
  | t => cloneTermNormal vm bm t

/-- Clone the bodies of the non-entry callee blocks: parameters and
instruction results take their pre-allocated fresh ids, operands are remapped
through the value map. -/
def buildBlocks (vm bm : List (Nat × Nat)) (retToId : Nat) :
    List (Nat × SBlock) → Except Unit (List (Nat × SBlock))
  | [] => .ok []
  | (cid, blk) :: rest =>
    match lookupId bm cid with
    | none => .error ()
    | some nid =>
      match cloneBlockTerm vm bm retToId blk.term with
      | .error e => .error e
      | .ok t =>
        match buildBlocks vm bm retToId rest with
        | .error e => .error e
        | .ok tail =>
          .ok ((nid, ⟨blk.params.map (remapValue vm),
            blk.insts.map (fun I =>
              ⟨remapValue vm I.res, I.opcode, I.operands.map (remapValue vm)⟩),
            t⟩) :: tail)

/-- The general path of `SILInliner::inlineFunction`: split the caller block
after the apply into the prefix (which receives the cloned entry body and the
cloned entry terminator) and a return-to block holding the split-off suffix
and the original terminator, with one fresh parameter standing for the call
result; clone the remaining callee blocks, rewriting their `return`s into
branches to the return-to block; redirect all uses of the apply to the new
parameter and erase the apply. -/
def generalPath (caller : Fn) (b i : Nat) (callee : Fn) (entry : SBlock)
    (cloned : List SInst) (vm : List (Nat × Nat)) (ctr : Nat)
    (cblk : SBlock) (ai : SInst) : Except Unit (Bool × Fn) :=
  let (bm, vm2, ctr2) := allocBlocks (callee.blocks.drop 1) [] vm ctr
  let retToId := ctr2
  let retArg := ctr2 + 1
  match buildBlocks vm2 bm retToId (callee.blocks.drop 1) with
  | .error e => .error e
  | .ok clonedBlocks =>
    match cloneTermNormal vm2 bm entry.term with
    | .error e => .error e
    | .ok entryTerm =>
      let newBlocks :=
        caller.blocks.map (fun p =>
          if p.1 == b then
            (p.1, (⟨cblk.params,
              ((cblk.insts.take (i + 1)) ++ cloned).eraseIdx i, entryTerm⟩ : SBlock))
          else p)
        ++ clonedBlocks
        ++ [(retToId, ⟨[retArg], cblk.insts.drop (i + 1), cblk.term⟩)]
      let F1 : Fn := { caller with blocks := newBlocks }
      .ok (true, substFn ai.res retArg F1)

/-- Body of `SILInliner::inlineFunction` after the refusal check and the
calling-convention assertion: seed the value map with entry parameters to
supplied arguments (asserting arity), clone the callee entry-block body after
the apply, then take the fast path when the callee entry block ends in a
return and the general path otherwise. -/
def inlineFunctionBody (caller : Fn) (b i : Nat) (callee : Fn)
    (args : List Nat) (ctr : Nat) : Except Unit (Bool × Fn) :=
  match callee.blocks.head? with
  | none => .error ()
  | some (_, entry) =>
    if entry.params.length ≠ args.length then .error ()
    else
      match findBlock caller b with
      | none => .error ()
      | some cblk =>
        match cblk.insts.get? i with
        | none => .error ()
        | some ai =>
          let (cloned, vm, ctr2) :=
            cloneInsts entry.insts (entry.params.zip args) ctr
          match entry.term with
          | .ret r =>
              .ok (true, fastPathResult caller b i ai.res cloned (remapValue vm r))
          | _ => generalPath caller b i callee entry cloned vm ctr2 cblk ai

/-- `SILInliner::inlineFunction`, inlining the callee at the apply sitting at
index `i` of the caller block with id `b`, with replacement arguments `args`.
The apply into its own parent function is refused (`false`, caller
unchanged); a mandatory-inlining pass applied to a foreign calling convention
is an assertion failure. -/
def inlineFunction (caller : Fn) (b i : Nat) (callee : Fn) (args : List Nat)
    (kind : InlineKind) (ctr : Nat) : Except Unit (Bool × Fn) :=
  if caller.name = callee.name then .ok (false, caller)
  else if (callee.cc = .objCMethod ∨ callee.cc = .c) ∧
      ¬ kind = .performanceInline then .error ()
  else inlineFunctionBody caller b i callee args ctr

end SILInliner

namespace CostModel

/-- `UINT_MAX` on the 32-bit-`unsigned` platforms the source targets; the
sentinel value of `InlineCost::CannotBeInlined` and of `getFunctionCost`. -/
def UINTMAX : Nat := 2 ^ 32 - 1

inductive MetatypeRep where
  | thin
  | thick
  | objC
deriving DecidableEq, Repr

/-- `enum class InlineCost : unsigned { Free = 0, Expensive = 1,
CannotBeInlined = UINT_MAX }`. -/
inductive InlineCost where
  | free
  | expensive
  | cannotBeInlined
deriving DecidableEq, Repr

/-- The numeric value of an `InlineCost`, as fixed by the C++ enum. -/
def InlineCost.value : InlineCost → Nat
  | .free => 0
  | .expensive => 1
  | .cannotBeInlined => UINTMAX

/-- The instruction kinds handled by `instructionInlineCost` other than
`MetatypeInst` and `ApplyInst` (which carry extra data).  `SILArgument`,
`SILUndef`, `MarkFunctionEscapeInst` and `MarkUninitializedInst` are
`llvm_unreachable` in the source (not instructions / not canonical SIL) and
are omitted from the model. -/
inductive CMInstKind where
  | builtinFunctionRef | globalAddr | integerLiteral | floatLiteral
  | debugValue | debugValueAddr | stringLiteral | fixLifetime
  | functionRef | silGlobalAddr
  | tupleElementAddr | structElementAddr | projectBlockStorage
  | tuple | struct | structExtract | tupleExtract
  | addressToPointer | pointerToAddress
  | uncheckedRefCast | uncheckedAddrCast
  | uncheckedRefBitCast | uncheckedTrivialBitCast
  | rawPointerToRef | refToRawPointer
  | upcastExistentialRef | upcast
  | thinToThickFunction | convertFunction
  | thickToObjCMetatype | objCToThickMetatype
  | objCProtocol
  | objCExistentialMetatypeToObject | objCMetatypeToObject
  | unreachable | «return»
  | allocBox | allocRef | allocRefDynamic | allocStack
  | valueMetatype | witnessMethod | assign | autoreleaseReturn
  | branch | checkedCastBranch | checkedCastAddrBranch | classMethod
  | condBranch | condFail | copyBlock | copyAddr | retainValue
  | deallocBox | deallocRef | deallocStack | deinitExistential
  | destroyAddr | releaseValue | autoreleaseValue
  | dynamicMethodBranch | dynamicMethod | enum | enumIsTag
  | indexAddr | indexRawPointer | initEnumDataAddr | initExistential
  | initExistentialRef | injectEnumAddr | isNonnull | load | loadWeak
  | openExistential | openExistentialRef | partialApplyKind
  | projectExistential | projectExistentialRef | existentialMetatype
  | protocolMethod | refElementAddr | refToUnmanaged | refToUnowned
  | store | storeWeak | strongRelease | strongRetainAutoreleased
  | strongRetain | strongRetainUnowned | superMethod
  | switchEnumAddr | switchEnum | switchInt
  | uncheckedEnumData | uncheckedTakeEnumDataAddr
  | unconditionalCheckedCast | unconditionalCheckedCastAddr
  | unmanagedToRef | unownedRelease | unownedRetain | unownedToRef
  | upcastExistential | initBlockStorageHeader
deriving DecidableEq, Repr

/-- An instruction as seen by the cost model.  A `MetatypeInst` carries its
metatype representation; an `ApplyInst` carries, when its callee is a
`FunctionRefInst`, the name of the referenced function. -/
inductive CMInst where
  | metatype (rep : MetatypeRep)
  | applyInst (calleeFunctionRef : Option Nat)
  | simple (k : CMInstKind)
deriving DecidableEq, Repr

/-- The `Free` group of the `instructionInlineCost` switch; every other
`CMInstKind` is listed `Expensive` by the source. -/
def freeKind : CMInstKind → Bool
  | .builtinFunctionRef | .globalAddr | .integerLiteral | .floatLiteral
  | .debugValue | .debugValueAddr | .stringLiteral | .fixLifetime
  | .functionRef | .silGlobalAddr
  | .tupleElementAddr | .structElementAddr | .projectBlockStorage
  | .tuple | .struct | .structExtract | .tupleExtract
  | .addressToPointer | .pointerToAddress
  | .uncheckedRefCast | .uncheckedAddrCast
  | .uncheckedRefBitCast | .uncheckedTrivialBitCast
  | .rawPointerToRef | .refToRawPointer
  | .upcastExistentialRef | .upcast
  | .thinToThickFunction | .convertFunction
  | .thickToObjCMetatype | .objCToThickMetatype
  | .objCProtocol
  | .objCExistentialMetatypeToObject | .objCMetatypeToObject
  | .unreachable | .«return» => true
  | _ => false

/-- `instructionInlineCost(I, Caller)`.  `parent` is the function containing
the instruction (`AI->getFunction()`); the `Caller` argument is accepted and,
as in the source, never consulted. -/
def instructionInlineCost (I : CMInst) (parent : Nat) (_Caller : Option Nat) :
    InlineCost :=
  match I with
  | .metatype rep => if rep = .thin then .free else .expensive
  | .applyInst calleeRef =>
      match calleeRef with
      | some f => if f = parent then .cannotBeInlined else .expensive
      | none => .expensive
  | .simple k => if freeKind k then .free else .expensive

/-- A function as seen by the cost model: its identity, the `transparent`
attribute, and its instructions grouped by block in IR order. -/
structure CMFunction where
  name : Nat
  transparent : Bool
  blocks : List (List CMInst)
deriving DecidableEq, Repr

/-- The summation loop of `getFunctionCost`: walk instructions in IR order;
a `CannotBeInlined` instruction yields the sentinel immediately; otherwise
accumulate (unsigned arithmetic) and stop as soon as the running total
exceeds the cutoff. -/
def costLoop (parent : Nat) (caller : Option Nat) (cutoff : Nat) :
    List CMInst → Nat → Nat
  | [], cost => cost
  | I :: rest, cost =>
    match instructionInlineCost I parent caller with
    | .cannotBeInlined => UINTMAX
    | c =>
      let cost2 := (cost + c.value) % 2 ^ 32
      if cutoff < cost2 then cost2 else costLoop parent caller cutoff rest cost2

/-- `swift::getFunctionCost(F, Caller, Cutoff)`: zero for a transparent
function, otherwise the (possibly cut-off) sum of instruction costs, with
`UINT_MAX` as soon as some instruction cannot be inlined. -/
def getFunctionCost (F : CMFunction) (caller : Option Nat) (cutoff : Nat) : Nat :=
  if F.transparent then 0
  else costLoop F.name caller cutoff F.blocks.flatten 0

end CostModel

namespace SILCombiner

/-- String-literal encodings supported by the concatenation optimization. -/
inductive Encoding where
  | utf8
  | utf16
deriving DecidableEq, Repr

/-- Effects metadata of a function, an ordered classification (the spec:
"pure < read-none < read-only < read-write < ...").  Functions without
effects metadata sit above `readWrite` and so never pass the
strictly-below-`ReadWrite` tests. -/
inductive EffectsKind where
  | readNone
  | readOnly
  | readWrite
  | unspecified
deriving DecidableEq, Repr

def EffectsKind.toNat : EffectsKind → Nat
  | .readNone => 0
  | .readOnly => 1
  | .readWrite => 2
  | .unspecified => 3

/-- The `>=` comparison on `EffectsKind` used by the source's bail-outs. -/
def effectsGe (a b : EffectsKind) : Bool := b.toNat ≤ a.toNat

/-- The function attributes consulted by the combiner rules. -/
structure FnAttrs where
  name : Nat
  semantics : Option String
  effects : EffectsKind
deriving DecidableEq, Repr

/-- `SILFunction::hasSemanticsString`. -/
def hasSemanticsString (f : FnAttrs) (s : String) : Bool := f.semantics == some s

/-- An enum element declaration: identity plus `hasArgumentType` (whether the
case carries a payload). -/
structure EnumElt where
  id : Nat
  hasArgumentType : Bool
deriving DecidableEq, Repr

/-- An enum declaration: its elements in declaration order
(`getAllElements`). -/
structure EnumDeclM where
  elements : List EnumElt
deriving DecidableEq, Repr

/-- The type facts the combiner queries from the oracle about a SIL type,
plus the enum declaration behind an enum type
(`getEnumOrBoundGenericEnum`). -/
structure Ty where
  trivial : Bool
  refSemantics : Bool
  archetype : Bool
  enumDecl : Option EnumDeclM
deriving DecidableEq, Repr

/-- Builtin function kinds the modelled rules dispatch on. -/
inductive BuiltinKind where
  | xorKind
  | icmpEq
  | icmpNe
  | otherBuiltin (id : Nat)
deriving DecidableEq, Repr

mutual

/-- A SIL value: its type together with the instruction shape producing it
(the combiner inspects producers through `dyn_cast`). -/
inductive Val where
  | mk (ty : Ty) (shape : ValShape)

/-- Producer shapes the modelled rules `dyn_cast` to.  `otherVal` stands for
any producer the rules do not inspect.  In an `applyOp`, operand 0 is the
callee and the remaining operands are the arguments, as in `ApplyInst`. -/
inductive ValShape where
  | otherVal (id : Nat)
  | functionRef (f : FnAttrs)
  | builtinRef (b : BuiltinKind)
  | stringLit (enc : Encoding) (scalars : List Nat)
  | intLit (v : Int)
  | applyOp (transparent : Bool) (operands : List Val)
  | uncheckedRefBitCast (x : Val)
  | enumInst (elt : EnumElt) (payload : Option Val)

end

def Val.ty : Val → Ty
  | .mk t _ => t

def Val.shape : Val → ValShape
  | .mk _ s => s

end SILCombiner

namespace SILCombiner

/-- Zero-ness classification returned by the `isZeroValue` oracle of
`ValueTracking`. -/
inductive IsZeroKind where
  | zero
  | notZero
  | unknown
deriving DecidableEq, Repr

/-- `SILCombiner::optimizeBuiltinCompareEq` on the two arguments of an
`icmp_eq` (`negate = false`, per the dispatch in `visitApplyInst`) or
`icmp_ne` (`negate = true`) builtin apply: bail on any `Unknown`, bail when
both sides are known non-zero, otherwise fold to the value of the created
1-bit integer literal, `(LHS == RHS) ^ Negate`. -/
def optimizeBuiltinCompareEq (oracle : Val → IsZeroKind) (arg0 arg1 : Val)
    (negate : Bool) : Option Nat :=
  let lhs := oracle arg0
  let rhs := oracle arg1
  if lhs = .unknown ∨ rhs = .unknown then none
  else if lhs = .notZero ∧ rhs = .notZero then none
  else some (if Bool.xor (lhs == rhs) negate then 1 else 0)

/-- The data of a `CondBranchInst`: condition, destinations and the branch
arguments accompanying each destination. -/
structure CondBrData where
  cond : Val
  trueDest : Nat
  trueArgs : List Val
  falseDest : Nat
  falseArgs : List Val

/-- The matcher `m_ApplyInst(BuiltinValueKind::Xor, m_SILValue(X), m_One())`:
an apply of the `Xor` builtin whose second argument is the integer literal
one, capturing the first argument. -/
def matchXorOne : Val → Option Val
  | .mk _ (.applyOp _ [.mk _ (.builtinRef .xorKind), x, .mk _ (.intLit 1)]) =>
      some x
  | _ => none

/-- `SILCombiner::visitCondBranchInst`:
`cond_br(xor(x, 1)), t_label, f_label -> cond_br x, f_label, t_label`, the
replacement being `CondBranchInst::create(X, falseBB, origFalseArgs, trueBB,
origTrueArgs)`. -/
def visitCondBranchInst (cbi : CondBrData) : Option CondBrData :=
  match matchXorOne cbi.cond with
  | some x => some ⟨x, cbi.falseDest, cbi.falseArgs, cbi.trueDest, cbi.trueArgs⟩
  | none => none

/-- Outcome of `SILCombiner::visitReleaseValueInst`. -/
inductive ReleaseResult where
  | erased
  | newReleaseValue (v : Val)
  | newStrongRelease (v : Val)
  | noChange

/-- Outcome of `SILCombiner::visitRetainValueInst`; `erasedPair` is the
adjacent release/retain peephole erasing both instructions. -/
inductive RetainResult where
  | erased
  | erasedPair
  | newRetainValue (v : Val)
  | newStrongRetain (v : Val)
  | noChange

/-- `SILCombiner::visitReleaseValueInst` on its operand: an `enum` producer
with no payload or a trivial payload is erased, one with a non-trivial
payload forwards to the payload; otherwise a reference-semantics operand
becomes `strong_release`, a trivial operand is erased, and anything else is
left alone. -/
def visitReleaseValueInst (op : Val) : ReleaseResult :=
  match op.shape with
  | .enumInst _ payload =>
    match payload with
    | none => .erased
    | some p => if p.ty.trivial then .erased else .newReleaseValue p
  | _ =>
    if op.ty.refSemantics then .newStrongRelease op
    else if op.ty.trivial then .erased
    else .noChange

/-- `SILCombiner::visitRetainValueInst` on its operand.
`prevIsMatchingRelease` abstracts the context query "the instruction
immediately preceding in the block is a `release_value` of the same operand"
used by the final adjacent-pair peephole (pointer identity in the source). -/
def visitRetainValueInst (op : Val) (prevIsMatchingRelease : Bool) : RetainResult :=
  match op.shape with
  | .enumInst _ payload =>
    match payload with
    | none => .erased
    | some p => if p.ty.trivial then .erased else .newRetainValue p
  | _ =>
    if op.ty.refSemantics then .newStrongRetain op
    else if op.ty.trivial then .erased
    else if prevIsMatchingRelease then .erasedPair
    else .noChange

/-- `isFirstPayloadedCase`: whether `elt` is the first element of the enum
declaration that carries a payload. -/
def isFirstPayloadedCase (E : EnumDeclM) (elt : EnumElt) : Bool :=
  match E.elements.find? (fun e => e.hasArgumentType) with
  | some first => first == elt
  | none => false

/-- `SILCombiner::visitUncheckedEnumDataInst`: rewrite
`(unchecked_enum_data (unchecked_ref_bit_cast x) #z)` to
`(unchecked_ref_bit_cast x)` at the extraction's type, but only when the
operand type has no archetype, is not trivial, and `#z` is the first
payloaded case of the operand's enum. -/
def visitUncheckedEnumDataInst (operand : Val) (element : EnumElt)
    (resTy : Ty) : Option Val :=
  if operand.ty.archetype || operand.ty.trivial then none
  else
    match operand.shape with
    | .uncheckedRefBitCast x =>
      match operand.ty.enumDecl with
      | some E =>
          if isFirstPayloadedCase E element then
            some (.mk resTy (.uncheckedRefBitCast x))
          else none
      | none => none
    | _ => none

/-- A string literal as the concatenation optimizer tracks it: encoding plus
the unicode-scalar values of its contents. -/
structure StrLit where
  enc : Encoding
  scalars : List Nat
deriving DecidableEq, Repr

/-- An `ApplyInst` as tracked by the concatenation optimizer: its
transparency flag and its operands (operand 0 being the callee). -/
structure ApplyData where
  transparent : Bool
  operands : List Val

/-- The fields `StringConcatenationOptimizer` fills in on a successful
`extractStringConcatOperands`. -/
structure ConcatOperands where
  aiLeft : ApplyData
  aiRight : ApplyData
  friLeft : FnAttrs
  friRight : FnAttrs
  sliLeft : StrLit
  sliRight : StrLit

/-- The fields updated by `adjustEncodings`. -/
structure AdjustResult where
  sliLeft : StrLit
  sliRight : StrLit
  friConvert : FnAttrs
  isTransparent : Bool
  funcResultType : Val

/-- `StringConcatenationOptimizer::extractStringConcatOperands`, on the
operand list of the candidate apply: the callee must be a function reference
tagged `string.concat` with exactly two call arguments; both arguments must
be applies of function references with effects strictly below `ReadWrite`
and defined semantics; the maker-signature test
(`string.makeUTF16` with 4 operands or `string.makeUTF8` with 5 operands)
is, as in the source, a disjunction over the two sides; both arguments'
first call operands must be string literals of a supported encoding. -/
def extractStringConcatOperands (aiOps : List Val) : Option ConcatOperands :=
  match aiOps.get? 0 with
  | some (.mk _ (.functionRef friFun)) =>
    if aiOps.length ≠ 3 ∨ ¬ hasSemanticsString friFun "string.concat" then none
    else
      match aiOps.get? 1, aiOps.get? 2 with
      | some (.mk _ (.applyOp ltr lops)), some (.mk _ (.applyOp rtr rops)) =>
        match lops.get? 0, rops.get? 0 with
        | some (.mk _ (.functionRef lf)), some (.mk _ (.functionRef rf)) =>
          if effectsGe lf.effects .readWrite ∨ effectsGe rf.effects .readWrite then
            none
          else if ¬ lf.semantics.isSome ∨ ¬ rf.semantics.isSome then none
          else
            let semLeft := lf.semantics.getD ""
            let semRight := rf.semantics.getD ""
            if ¬ ((semLeft = "string.makeUTF16" ∧ lops.length = 4) ∨
                  (semLeft = "string.makeUTF8" ∧ lops.length = 5) ∨
                  (semRight = "string.makeUTF16" ∧ rops.length = 4) ∨
                  (semRight = "string.makeUTF8" ∧ rops.length = 5)) then none
            else
              match lops.get? 1, rops.get? 1 with
              | some (.mk _ (.stringLit lenc lsc)), some (.mk _ (.stringLit renc rsc)) =>
                if ((lenc ≠ .utf8 ∧ lenc ≠ .utf16) ∨
                    (renc ≠ .utf8 ∧ renc ≠ .utf16)) then none
                else some ⟨⟨ltr, lops⟩, ⟨rtr, rops⟩, lf, rf, ⟨lenc, lsc⟩, ⟨renc, rsc⟩⟩
              | _, _ => none
        | _, _ => none
      | _, _ => none
  | _ => none

/-- `StringConcatenationOptimizer::adjustEncodings`: with equal encodings the
left apply supplies the maker, transparency and the result-type operand
(operand 4 for UTF-8 makers, operand 3 for UTF-16 ones); with mixed
encodings the UTF-8 side's literal is re-issued as a UTF-16 literal with the
same scalars and the UTF-16 side supplies maker, transparency and
result-type.  Out-of-range operand access is a failure (`none`). -/
def adjustEncodings (co : ConcatOperands) : Option AdjustResult :=
  if co.sliLeft.enc = co.sliRight.enc then
    match co.aiLeft.operands.get? (if co.sliLeft.enc = .utf8 then 4 else 3) with
    | some frt =>
        some ⟨co.sliLeft, co.sliRight, co.friLeft, co.aiLeft.transparent, frt⟩
    | none => none
  else if co.sliLeft.enc = .utf8 ∧ co.sliRight.enc = .utf16 then
    match co.aiRight.operands.get? 3 with
    | some frt =>
        some ⟨⟨.utf16, co.sliLeft.scalars⟩, co.sliRight, co.friRight,
          co.aiRight.transparent, frt⟩
    | none => none
  else if co.sliRight.enc = .utf8 ∧ co.sliLeft.enc = .utf16 then
    match co.aiLeft.operands.get? 3 with
    | some frt =>
        some ⟨co.sliLeft, ⟨.utf16, co.sliRight.scalars⟩, co.friLeft,
          co.aiLeft.transparent, frt⟩
    | none => none
  else none

/-- Code units a unicode scalar occupies in the given encoding; the basis of
`StringLiteralInst::getCodeUnitCount`. -/
def scalarUnits : Encoding → Nat → Nat
  | .utf8, c =>
      if c < 0x80 then 1 else if c < 0x800 then 2
      else if c < 0x10000 then 3 else 4
  | .utf16, c => if c < 0x10000 then 1 else 2

/-- `StringLiteralInst::getCodeUnitCount` of a literal's contents. -/
def codeUnitCount (enc : Encoding) (scalars : List Nat) : Nat :=
  (scalars.map (scalarUnits enc)).sum

/-- The apply instruction built by `StringConcatenationOptimizer::optimize`:
the maker chosen by `adjustEncodings`, the freshly created literal arguments,
and the preserved transparency flag. -/
structure NewApply where
  callee : FnAttrs
  args : List Val
  transparent : Bool

/-- Type assigned to builder-created string literals; literal types are not
tracked by the model. -/
def stringLitTy : Ty := ⟨true, false, false, none⟩

/-- `StringConcatenationOptimizer::optimize`
(`SILCombiner::optimizeConcatenationOfStringLiterals`), on the operand list
of the candidate apply.  `.ok none` is the source's `nullptr` (no change);
`.error ()` models a failed `assert` (a reported length differing from the
literal's code-unit count) or a null dereference (a length or isAscii
operand that is not an integer literal).  On success the new apply's
arguments are the concatenated string literal, the summed length literal,
for UTF-8 the isAscii literal (the logical AND of both sides), and the
result-type operand. -/
def optimizeConcatenationOfStringLiterals (aiOps : List Val) :
    Except Unit (Option NewApply) :=
  match extractStringConcatOperands aiOps with
  | none => .ok none
  | some co =>
    match adjustEncodings co with
    | none => .error ()
    | some adj =>
      match co.aiLeft.operands.get? 2, co.aiRight.operands.get? 2 with
      | some (.mk lty2 (.intLit lenLeft)), some (.mk _ (.intLit lenRight)) =>
        if (codeUnitCount adj.sliLeft.enc adj.sliLeft.scalars : Int) ≠ lenLeft then
          .error ()
        else if (codeUnitCount adj.sliRight.enc adj.sliRight.scalars : Int) ≠ lenRight then
          .error ()
        else
          let encoding := adj.sliLeft.enc
          let newSLI : Val :=
            .mk stringLitTy (.stringLit encoding (adj.sliLeft.scalars ++ adj.sliRight.scalars))
          let lenLit : Val := .mk lty2 (.intLit (lenLeft + lenRight))
          if encoding = .utf8 then
            match co.aiLeft.operands.get? 3, co.aiRight.operands.get? 3 with
            | some (.mk aty3 (.intLit asciiLeft)), some (.mk _ (.intLit asciiRight)) =>
              let asciiLit : Val :=
                .mk aty3 (.intLit (if asciiLeft = 1 ∧ asciiRight = 1 then 1 else 0))
              .ok (some ⟨adj.friConvert,
                [newSLI, lenLit, asciiLit, adj.funcResultType], adj.isTransparent⟩)
            | _, _ => .error ()
          else
            .ok (some ⟨adj.friConvert,
              [newSLI, lenLit, adj.funcResultType], adj.isTransparent⟩)
      | _, _ => .error ()

def effectsLt (a b : EffectsKind) : Bool := a.toNat < b.toNat

/-- The dispatch context of the concatenation rule inside
`SILCombiner::visitApplyInst`: the rule is attempted when the apply's callee
is a function reference whose effects are strictly below `ReadWrite`
(assuming, as at that point of the visitor, that no earlier rule fired). -/
def visitApplyStringConcat (aiOps : List Val) : Except Unit (Option NewApply) :=
  match aiOps.get? 0 with
  | some (.mk _ (.functionRef f)) =>
      if effectsLt f.effects .readWrite then
        optimizeConcatenationOfStringLiterals aiOps
      else .ok none
  | _ => .ok none

end SILCombiner

namespace CostModel

/-- Sum of the numeric inline costs of a list of instructions (the value the
summation loop accumulates when no instruction is `CannotBeInlined` and the
cutoff is not reached). -/
def sumCosts (parent : Nat) (caller : Option Nat) (l : List CMInst) : Nat :=
  (l.map (fun I => (instructionInlineCost I parent caller).value)).sum

/-- A transparent function containing a directly recursive apply. -/
def cexTransRec : CMFunction := ⟨0, true, [[CMInst.applyInst (some 0)]]⟩

/-- A non-transparent function with an expensive instruction followed by a
directly recursive apply. -/
def cexCutoff : CMFunction :=
  ⟨0, false, [[CMInst.simple .store, CMInst.applyInst (some 0)]]⟩

/-- `cexCutoff` with its first instruction removed. -/
def cexCutoffErased : CMFunction := ⟨0, false, [[CMInst.applyInst (some 0)]]⟩

/-- A small recursion-free function used as a concrete instance. -/
def cexPlain : CMFunction :=
  ⟨0, false, [[CMInst.simple .load, CMInst.simple .store]]⟩

/-- `cexPlain` with its first instruction removed. -/
def cexPlainErased : CMFunction := ⟨0, false, [[CMInst.simple .store]]⟩

end CostModel

namespace SILCombiner

/-- A type with no interesting facts, used for concrete instances. -/
def tyPlain : Ty := ⟨false, false, false, none⟩

/-- A trivial (and not reference-semantics) type. -/
def tyTrivial : Ty := ⟨true, false, false, none⟩

/-- A reference-semantics (and not trivial) type. -/
def tyRef : Ty := ⟨false, true, false, none⟩

/-- A type containing an archetype. -/
def tyArchetype : Ty := ⟨false, false, true, none⟩

/-- An uninspected value of no particular type. -/
def vPlain (n : Nat) : Val := .mk tyPlain (.otherVal n)

/-- Attributes of a `string.makeUTF8`-tagged maker with benign effects. -/
def makerUTF8Attrs (n : Nat) : FnAttrs := ⟨n, some "string.makeUTF8", .readNone⟩

/-- Attributes of a function with defined semantics that is not a string
maker, with benign effects. -/
def otherSemAttrs (n : Nat) : FnAttrs := ⟨n, some "string.other", .readNone⟩

/-- Attributes of the `string.concat`-tagged callee. -/
def concatAttrs : FnAttrs := ⟨1, some "string.concat", .readNone⟩

/-- The scalars of the literal `"foo"`. -/
def fooScalars : List Nat := [102, 111, 111]

/-- The scalars of the literal `"bar"`. -/
def barScalars : List Nat := [98, 97, 114]

/-- A 5-operand call of function `attrs` consuming a UTF-8 string literal,
the matching length literal `3`, an isAscii literal `1`, and a result-type
operand. -/
def makerCall (attrs : FnAttrs) (scalars : List Nat) (tm : Nat) : Val :=
  .mk tyPlain (.applyOp false
    [.mk tyPlain (.functionRef attrs),
     .mk tyPlain (.stringLit .utf8 scalars),
     .mk tyPlain (.intLit 3),
     .mk tyPlain (.intLit 1),
     vPlain tm])

/-- Operand list of a `string.concat` call whose left argument is a proper
`string.makeUTF8` maker call but whose right argument calls a function whose
semantics tag is not a string maker. -/
def concatRightNotMaker : List Val :=
  [.mk tyPlain (.functionRef concatAttrs),
   makerCall (makerUTF8Attrs 10) fooScalars 100,
   makerCall (otherSemAttrs 11) barScalars 101]

/-- Operand list of a `string.concat` call whose right argument is a proper
`string.makeUTF8` maker call but whose left argument calls a function whose
semantics tag is not a string maker. -/
def concatLeftNotMaker : List Val :=
  [.mk tyPlain (.functionRef concatAttrs),
   makerCall (otherSemAttrs 12) fooScalars 102,
   makerCall (makerUTF8Attrs 13) barScalars 103]

end SILCombiner

namespace SILInliner

/-- A one-block caller containing one (apply) instruction. -/
def fnCaller : Fn := ⟨0, .freestanding, [(0, ⟨[], [⟨20, 1, [2, 3]⟩], .unreachable⟩)]⟩

/-- A one-parameter callee whose entry block computes one instruction and
returns it. -/
def fnCallee : Fn := ⟨1, .freestanding, [(0, ⟨[10], [⟨11, 5, [10]⟩], .ret 11⟩)]⟩

/-- A callee with C calling convention. -/
def fnCalleeC : Fn := ⟨1, .c, [(0, ⟨[], [], .ret 0⟩)]⟩

end SILInliner

open SILCombiner in
/-- C7: for every conditional branch whose condition matches `xor(x, 1)`, the
rewrite produces a conditional branch on `x` whose true destination is the
original false destination accompanied by the original false arguments, and
whose false destination is the original true destination accompanied by the
original true arguments: destinations and argument lists are exchanged
symmetrically together. -/
theorem C7_condBranch_xor_swaps_args (cbi : CondBrData) (x : Val)
    (h : matchXorOne cbi.cond = some x) :
    visitCondBranchInst cbi =
      some ⟨x, cbi.falseDest, cbi.falseArgs, cbi.trueDest, cbi.trueArgs⟩ := by
  unfold visitCondBranchInst
  rw [h]

open SILCombiner in
/-- Witness for C7 at a concrete conditional branch on `xor(x, 1)`. -/
theorem C7_condBranch_xor_swaps_args_witness :
    visitCondBranchInst
      ⟨.mk tyPlain (.applyOp false
          [.mk tyPlain (.builtinRef .xorKind), vPlain 7, .mk tyPlain (.intLit 1)]),
        3, [vPlain 1], 4, [vPlain 2]⟩ =
      some ⟨vPlain 7, 4, [vPlain 2], 3, [vPlain 1]⟩ :=
  C7_condBranch_xor_swaps_args _ _ rfl

open SILCombiner in
/-- C8 (counterexample): the claim says that when both operands are
classified known-non-zero but are NOT distinct, the rule still folds the
compare ("otherwise the apply is folded...").  On `icmp_eq` applied to one
and the same operand classified `NotZero`, the claim therefore demands the
fold `some 1`; the source bails out whenever both sides are known non-zero,
with no distinctness test, and makes no change. -/
theorem C8_counterexample_same_operand :
    optimizeBuiltinCompareEq (fun _ => IsZeroKind.notZero)
      (vPlain 0) (vPlain 0) false = none := rfl

open SILCombiner in
/-- C8 (amended): if the oracle classifies either operand as `Unknown`, no
change; if both operands are classified known-non-zero, no change (whether or
not the operands are distinct); otherwise the apply is folded to a 1-bit
literal whose value is (left-is-zero equals right-is-zero) XOR the negation
flag. -/
theorem C8_compare_fold_characterization (oracle : Val → IsZeroKind)
    (a b : Val) (negate : Bool) :
    optimizeBuiltinCompareEq oracle a b negate =
      match oracle a, oracle b with
      | .unknown, _ => none
      | _, .unknown => none
      | .notZero, .notZero => none
      | .zero, .zero => some (if negate then 0 else 1)
      | _, _ => some (if negate then 1 else 0) := by
  unfold optimizeBuiltinCompareEq
  rcases h1 : oracle a <;> rcases h2 : oracle b <;>
    simp [h1, h2] <;> cases negate <;> rfl

open SILCombiner in
/-- C10: `visitUncheckedEnumDataInst` returns no change whenever the operand
type has an archetype or is trivial, for every extracted case (in particular
even when it is the first payloaded case of the enum). -/
theorem C10_uncheckedEnumData_bails (operand : Val) (element : EnumElt)
    (resTy : Ty)
    (h : operand.ty.archetype = true ∨ operand.ty.trivial = true) :
    visitUncheckedEnumDataInst operand element resTy = none := by
  unfold visitUncheckedEnumDataInst
  rcases h with h | h <;> simp [h]

open SILCombiner in
/-- Witness for C10: an archetype-typed operand that is an
`unchecked_ref_bit_cast` of a value, extracting the first payloaded case of a
single-case payloaded enum, is still left unchanged; likewise a trivially
typed operand. -/
theorem C10_uncheckedEnumData_bails_witness :
    visitUncheckedEnumDataInst
      (.mk ⟨false, false, true, some ⟨[⟨0, true⟩]⟩⟩
        (.uncheckedRefBitCast (vPlain 5))) ⟨0, true⟩ tyPlain = none
    ∧ visitUncheckedEnumDataInst
      (.mk ⟨true, false, false, some ⟨[⟨0, true⟩]⟩⟩
        (.uncheckedRefBitCast (vPlain 5))) ⟨0, true⟩ tyPlain = none :=
  ⟨C10_uncheckedEnumData_bails _ _ _ (Or.inl rfl),
   C10_uncheckedEnumData_bails _ _ _ (Or.inr rfl)⟩

open SILCombiner in
@[simp] theorem Val_ty_mk (t : Ty) (s : ValShape) : (Val.mk t s).ty = t := rfl

open SILCombiner in
@[simp] theorem Val_shape_mk (t : Ty) (s : ValShape) : (Val.mk t s).shape = s := rfl

open SILCombiner in
/-- C9: on a trivially typed operand both `visitReleaseValueInst` and
`visitRetainValueInst` erase the instruction; on a reference-semantics
operand they rewrite to `strong_release` / `strong_retain` on the same
operand.  The hypotheses record facts of the external type system: no type
is both trivial and reference-semantics, the (enum) type of an `enum`
producer never has reference semantics, and the payload of a trivially typed
enum value is trivially typed. -/
theorem C9_retain_release_triviality (op : Val) (prev : Bool)
    (hTR : ¬ (op.ty.trivial = true ∧ op.ty.refSemantics = true))
    (hEnumRef : ∀ elt payload, op.shape = ValShape.enumInst elt payload →
      op.ty.refSemantics = false)
    (hEnumTriv : ∀ elt p, op.shape = ValShape.enumInst elt (some p) →
      op.ty.trivial = true → p.ty.trivial = true) :
    (op.ty.trivial = true →
      visitReleaseValueInst op = .erased ∧ visitRetainValueInst op prev = .erased)
    ∧ (op.ty.refSemantics = true →
      visitReleaseValueInst op = .newStrongRelease op ∧
      visitRetainValueInst op prev = .newStrongRetain op) := by
  obtain ⟨ty, shape⟩ := op
  simp only [Val_ty_mk, Val_shape_mk] at hTR hEnumRef hEnumTriv ⊢
  cases shape
  case enumInst elt payload =>
    constructor
    · intro htriv
      cases payload with
      | none => exact ⟨rfl, rfl⟩
      | some p =>
        have hp := hEnumTriv elt p rfl htriv
        exact ⟨by simp [visitReleaseValueInst, hp],
          by simp [visitRetainValueInst, hp]⟩
    · intro href
      have h0 := hEnumRef elt payload rfl
      rw [h0] at href
      exact Bool.noConfusion href
  all_goals
    exact ⟨fun htriv =>
      have hr : ty.refSemantics = false := by
        cases h : ty.refSemantics
        · rfl
        · exact absurd ⟨htriv, h⟩ hTR
      ⟨by simp [visitReleaseValueInst, hr, htriv],
       by simp [visitRetainValueInst, hr, htriv]⟩,
      fun href =>
      ⟨by simp [visitReleaseValueInst, href],
       by simp [visitRetainValueInst, href]⟩⟩

open SILCombiner in
/-- Witness for C9 at a trivially typed operand and at a reference-semantics
operand. -/
theorem C9_retain_release_triviality_witness :
    (visitReleaseValueInst (Val.mk tyTrivial (.otherVal 0)) = .erased
      ∧ visitRetainValueInst (Val.mk tyTrivial (.otherVal 0)) false = .erased)
    ∧ (visitReleaseValueInst (Val.mk tyRef (.otherVal 1)) =
        .newStrongRelease (Val.mk tyRef (.otherVal 1))
      ∧ visitRetainValueInst (Val.mk tyRef (.otherVal 1)) false =
        .newStrongRetain (Val.mk tyRef (.otherVal 1))) :=
  ⟨(C9_retain_release_triviality (Val.mk tyTrivial (.otherVal 0)) false
      (by simp [tyTrivial])
      (fun elt payload h => ValShape.noConfusion h)
      (fun elt p h => ValShape.noConfusion h)).1 rfl,
   (C9_retain_release_triviality (Val.mk tyRef (.otherVal 1)) false
      (by simp [tyRef])
      (fun elt payload h => ValShape.noConfusion h)
      (fun elt p h => ValShape.noConfusion h)).2 rfl⟩

open SILCombiner in
/-- C5 (code bug): the maker-signature test of
`extractStringConcatOperands` is a disjunction across the two arguments
(`||` over the four cases), so the fold fires on a `string.concat` call
whose left argument is a proper `string.makeUTF8` maker call while the
right argument calls a function tagged `string.other` — not a string maker.
The claim (and the comments and subsequent unchecked operand accesses of the
source) require both arguments to be maker calls and no change otherwise. -/
theorem C5_concat_fires_with_nonmaker_right :
    visitApplyStringConcat concatRightNotMaker =
      .ok (some ⟨makerUTF8Attrs 10,
        [.mk stringLitTy (.stringLit .utf8 [102, 111, 111, 98, 97, 114]),
         .mk tyPlain (.intLit 6),
         .mk tyPlain (.intLit 1),
         vPlain 100], false⟩) := rfl

open SILCombiner in
/-- C6 (code bug): on a `string.concat` call whose right argument is a
proper `string.makeUTF8` maker call but whose left argument calls a
function tagged `string.other`, the fold still fires (the `||` of the
maker-signature test) and, the encodings being equal, `adjustEncodings`
selects the LEFT callee as the function to re-issue the call against: the
result is a call to the `string.other` function, not to "the maker function
of the resulting encoding" as the claim requires. -/
theorem C6_concat_rebuilds_against_nonmaker :
    visitApplyStringConcat concatLeftNotMaker =
      .ok (some ⟨otherSemAttrs 12,
        [.mk stringLitTy (.stringLit .utf8 [102, 111, 111, 98, 97, 114]),
         .mk tyPlain (.intLit 6),
         .mk tyPlain (.intLit 1),
         vPlain 102], false⟩) := rfl

open CostModel in
theorem InlineCost_value_le_one (c : InlineCost) (h : c ≠ .cannotBeInlined) :
    c.value ≤ 1 := by
  cases c
  · exact Nat.zero_le 1
  · exact Nat.le_refl 1
  · exact absurd rfl h

open CostModel in
theorem sumCosts_cons (parent : Nat) (caller : Option Nat) (I : CMInst)
    (l : List CMInst) :
    sumCosts parent caller (I :: l) =
      (instructionInlineCost I parent caller).value + sumCosts parent caller l := by
  simp [sumCosts]

open CostModel in
/-- If every instruction of the prefix can be inlined and the prefix cost
stays within the cutoff, the summation loop reaches the `CannotBeInlined`
instruction and returns the sentinel. -/
theorem costLoop_append_cannot (parent : Nat) (caller : Option Nat)
    (cutoff : Nat) (I0 : CMInst)
    (hI0 : instructionInlineCost I0 parent caller = .cannotBeInlined) :
    ∀ (pre rest : List CMInst) (acc : Nat),
      (∀ I ∈ pre, instructionInlineCost I parent caller ≠ .cannotBeInlined) →
      acc + sumCosts parent caller pre ≤ cutoff →
      costLoop parent caller cutoff (pre ++ I0 :: rest) acc = UINTMAX := by
  intro pre
  induction pre with
  | nil =>
    intro rest acc _ _
    simp [costLoop, hI0]
  | cons I pre ih =>
    intro rest acc h hle
    have hInc : instructionInlineCost I parent caller ≠ .cannotBeInlined :=
      h I (List.mem_cons_self I pre)
    simp only [List.cons_append, costLoop]
    rcases hc : instructionInlineCost I parent caller with _ | _ | _
    · rw [sumCosts_cons, hc] at hle
      simp only [InlineCost.value] at hle ⊢
      have hmod : (acc + 0) % 2 ^ 32 ≤ acc + 0 := Nat.mod_le _ _
      rw [if_neg (by omega)]
      have := ih rest ((acc + 0) % 2 ^ 32)
        (fun I hI => h I (List.mem_cons_of_mem _ hI)) (by omega)
      simpa using this
    · rw [sumCosts_cons, hc] at hle
      simp only [InlineCost.value] at hle ⊢
      have hmod : (acc + 1) % 2 ^ 32 ≤ acc + 1 := Nat.mod_le _ _
      rw [if_neg (by omega)]
      have := ih rest ((acc + 1) % 2 ^ 32)
        (fun I hI => h I (List.mem_cons_of_mem _ hI)) (by omega)
      simpa using this
    · exact absurd hc hInc

open CostModel in
/-- C3 (counterexample): the claim asserts both that a transparent `F`
yields cost 0 and that an `F` containing a directly recursive apply yields
the sentinel `UINT_MAX`; on a function that is transparent AND directly
recursive, `getFunctionCost` returns 0 (the transparency check precedes the
body walk), so the sentinel half of the claim is false. -/
theorem C3_counterexample_transparent_recursive :
    cexTransRec.transparent = true
    ∧ cexTransRec.blocks.flatten = [CMInst.applyInst (some cexTransRec.name)]
    ∧ getFunctionCost cexTransRec none 100 = 0
    ∧ getFunctionCost cexTransRec none 100 ≠ UINTMAX := by
  refine ⟨rfl, rfl, rfl, ?_⟩
  decide

open CostModel in
/-- C3 (amended): a transparent function has cost 0; a NON-transparent
function whose instruction walk reaches a directly recursive apply — no
earlier instruction is `CannotBeInlined` and the cost of the prefix does not
exceed the cutoff — has the sentinel cost `UINT_MAX`. -/
theorem C3_transparent_and_recursion_cost (F : CMFunction)
    (caller : Option Nat) (cutoff : Nat) :
    (F.transparent = true → getFunctionCost F caller cutoff = 0)
    ∧ (∀ pre rest, F.transparent = false →
        F.blocks.flatten = pre ++ CMInst.applyInst (some F.name) :: rest →
        (∀ I ∈ pre, instructionInlineCost I F.name caller ≠ .cannotBeInlined) →
        sumCosts F.name caller pre ≤ cutoff →
        getFunctionCost F caller cutoff = UINTMAX) := by
  constructor
  · intro h
    simp [getFunctionCost, h]
  · intro pre rest htr hflat hnc hcut
    simp only [getFunctionCost, htr, Bool.false_eq_true, if_false]
    rw [hflat]
    exact costLoop_append_cannot F.name caller cutoff _
      (by simp [instructionInlineCost]) pre rest 0 hnc (by omega)

open CostModel in
/-- Witness for C3 (amended): a concrete transparent function costs 0 and a
concrete non-transparent function whose second instruction is a directly
recursive apply costs `UINT_MAX`. -/
theorem C3_transparent_and_recursion_cost_witness :
    getFunctionCost cexTransRec none 7 = 0
    ∧ getFunctionCost cexCutoff none 7 = UINTMAX :=
  ⟨(C3_transparent_and_recursion_cost cexTransRec none 7).1 rfl,
   (C3_transparent_and_recursion_cost cexCutoff none 7).2
     [CMInst.simple .store] [] rfl rfl
     (by intro I hI; simp at hI; subst hI; decide)
     (by decide)⟩

open CostModel in
/-- With no `CannotBeInlined` instruction and no `unsigned` overflow, the
summation loop computes the minimum of the total cost and `cutoff + 1` (the
value at which the early exit triggers). -/
theorem costLoop_no_cannot (parent : Nat) (caller : Option Nat) (cutoff : Nat) :
    ∀ (l : List CMInst) (acc : Nat),
      (∀ I ∈ l, instructionInlineCost I parent caller ≠ .cannotBeInlined) →
      acc + sumCosts parent caller l < 2 ^ 32 →
      acc ≤ cutoff →
      costLoop parent caller cutoff l acc =
        min (acc + sumCosts parent caller l) (cutoff + 1) := by
  intro l
  induction l with
  | nil =>
    intro acc _ _ hacc
    simp only [costLoop, sumCosts, List.map_nil, List.sum_nil, Nat.add_zero]
    omega
  | cons I rest ih =>
    intro acc h hov hacc
    have hInc : instructionInlineCost I parent caller ≠ .cannotBeInlined :=
      h I (List.mem_cons_self I rest)
    simp only [costLoop]
    rcases hc : instructionInlineCost I parent caller with _ | _ | _
    · rw [sumCosts_cons, hc] at hov
      simp only [InlineCost.value] at hov ⊢
      have hmod : (acc + 0) % 2 ^ 32 = acc + 0 := Nat.mod_eq_of_lt (by omega)
      rw [hmod, if_neg (by omega)]
      rw [ih (acc + 0) (fun I hI => h I (List.mem_cons_of_mem _ hI))
        (by omega) (by omega)]
      rw [sumCosts_cons, hc]
      simp only [InlineCost.value]
      omega
    · rw [sumCosts_cons, hc] at hov
      simp only [InlineCost.value] at hov ⊢
      have hmod : (acc + 1) % 2 ^ 32 = acc + 1 := Nat.mod_eq_of_lt (by omega)
      rw [hmod]
      by_cases hcut : cutoff < acc + 1
      · rw [if_pos hcut, sumCosts_cons, hc]
        simp only [InlineCost.value]
        omega
      · rw [if_neg hcut]
        rw [ih (acc + 1) (fun I hI => h I (List.mem_cons_of_mem _ hI))
          (by omega) (by omega)]
        rw [sumCosts_cons, hc]
        simp only [InlineCost.value]
        omega
    · exact absurd hc hInc

open CostModel in
theorem sumCosts_le_length (parent : Nat) (caller : Option Nat) :
    ∀ (l : List CMInst),
      (∀ I ∈ l, instructionInlineCost I parent caller ≠ .cannotBeInlined) →
      sumCosts parent caller l ≤ l.length := by
  intro l
  induction l with
  | nil => intro _; simp [sumCosts]
  | cons I rest ih =>
    intro h
    rw [sumCosts_cons]
    have h1 := InlineCost_value_le_one _ (h I (List.mem_cons_self I rest))
    have h2 := ih (fun I hI => h I (List.mem_cons_of_mem _ hI))
    simp only [List.length_cons]
    omega

open CostModel in
theorem sumCosts_eraseIdx_le (parent : Nat) (caller : Option Nat) :
    ∀ (l : List CMInst) (j : Nat),
      sumCosts parent caller (l.eraseIdx j) ≤ sumCosts parent caller l := by
  intro l
  induction l with
  | nil => intro j; simp [List.eraseIdx]
  | cons a t ih =>
    intro j
    cases j with
    | zero =>
      rw [List.eraseIdx, sumCosts_cons]
      omega
    | succ j2 =>
      rw [List.eraseIdx, sumCosts_cons, sumCosts_cons]
      exact Nat.add_le_add_left (ih j2) _

open CostModel in
theorem mem_eraseIdx_mem {α : Type} :
    ∀ (l : List α) (j : Nat) (a : α), a ∈ l.eraseIdx j → a ∈ l := by
  intro l
  induction l with
  | nil => intro j a h; simp [List.eraseIdx] at h
  | cons b t ih =>
    intro j a h
    cases j with
    | zero =>
      rw [List.eraseIdx] at h
      exact List.mem_cons_of_mem _ h
    | succ j2 =>
      rw [List.eraseIdx] at h
      rcases List.mem_cons.mp h with h | h
      · exact h ▸ List.mem_cons_self _ _
      · exact List.mem_cons_of_mem _ (ih j2 a h)

open CostModel in
theorem length_eraseIdx_le {α : Type} :
    ∀ (l : List α) (j : Nat), (l.eraseIdx j).length ≤ l.length := by
  intro l
  induction l with
  | nil => intro j; simp [List.eraseIdx]
  | cons b t ih =>
    intro j
    cases j with
    | zero =>
      rw [List.eraseIdx]
      simp
    | succ j2 =>
      rw [List.eraseIdx]
      simp only [List.length_cons]
      exact Nat.succ_le_succ (ih j2)

open CostModel in
/-- C4 (counterexample): the claim says removing one instruction from `F`
cannot raise `getFunctionCost`.  With cutoff 0, a function consisting of an
expensive store followed by a directly recursive apply costs 1 (the walk
aborts at the cutoff before reaching the recursion), but removing the store
exposes the recursive apply and the cost jumps to the sentinel
`UINT_MAX`. -/
theorem C4_counterexample_removal_raises_cost :
    cexCutoffErased.blocks.flatten = cexCutoff.blocks.flatten.eraseIdx 0
    ∧ cexCutoffErased.name = cexCutoff.name
    ∧ cexCutoffErased.transparent = cexCutoff.transparent
    ∧ getFunctionCost cexCutoff none 0 <
        getFunctionCost cexCutoffErased none 0 := by
  refine ⟨rfl, rfl, rfl, ?_⟩
  decide

open CostModel in
/-- C4 (amended): for a function none of whose instructions is
`CannotBeInlined` (no directly recursive apply) and with fewer than `2 ^ 32`
instructions (no `unsigned` overflow), removing one instruction cannot raise
`getFunctionCost`. -/
theorem C4_cost_monotone_no_recursion (F Fr : CMFunction)
    (caller : Option Nat) (cutoff j : Nat)
    (hname : Fr.name = F.name) (htr : Fr.transparent = F.transparent)
    (hremove : Fr.blocks.flatten = F.blocks.flatten.eraseIdx j)
    (hnc : ∀ I ∈ F.blocks.flatten,
      instructionInlineCost I F.name caller ≠ .cannotBeInlined)
    (hlen : F.blocks.flatten.length < 2 ^ 32) :
    getFunctionCost Fr caller cutoff ≤ getFunctionCost F caller cutoff := by
  have hncr : ∀ I ∈ Fr.blocks.flatten,
      instructionInlineCost I F.name caller ≠ .cannotBeInlined := by
    intro I hI
    rw [hremove] at hI
    exact hnc I (mem_eraseIdx_mem _ _ _ hI)
  have hsF : sumCosts F.name caller F.blocks.flatten ≤ F.blocks.flatten.length :=
    sumCosts_le_length _ _ _ hnc
  have hsFr : sumCosts F.name caller Fr.blocks.flatten ≤
      sumCosts F.name caller F.blocks.flatten := by
    rw [hremove]
    exact sumCosts_eraseIdx_le _ _ _ _
  unfold getFunctionCost
  rw [hname, htr]
  by_cases htrans : F.transparent
  · simp [htrans]
  · simp only [htrans, if_false, Bool.false_eq_true]
    rw [costLoop_no_cannot F.name caller cutoff F.blocks.flatten 0 hnc
      (by omega) (Nat.zero_le _)]
    rw [costLoop_no_cannot F.name caller cutoff Fr.blocks.flatten 0 hncr
      (by omega) (Nat.zero_le _)]
    omega

open CostModel in
/-- Witness for C4 (amended) on a concrete recursion-free function. -/
theorem C4_cost_monotone_no_recursion_witness :
    getFunctionCost cexPlainErased none 10 ≤ getFunctionCost cexPlain none 10 :=
  C4_cost_monotone_no_recursion cexPlain cexPlainErased none 10 0 rfl rfl rfl
    (by intro I hI; simp [cexPlain] at hI; rcases hI with h | h <;> subst h <;> decide)
    (by decide)

open SILInliner in
/-- Every successful exit of the general path reports `true`. -/
theorem generalPath_ok_true (caller : Fn) (b i : Nat) (callee : Fn)
    (entry : SBlock) (cloned : List SInst) (vm : List (Nat × Nat)) (ctr : Nat)
    (cblk : SBlock) (ai : SInst) (p : Bool × Fn)
    (h : generalPath caller b i callee entry cloned vm ctr cblk ai = .ok p) :
    p.1 = true := by
  unfold generalPath at h
  simp only [] at h
  repeat' split at h
  all_goals try exact Except.noConfusion h
  all_goals injection h with h2; subst h2; rfl

open SILInliner in
/-- Every successful exit of `inlineFunctionBody` (both the fast path and the
general path) reports `true`. -/
theorem inlineFunctionBody_ok_true (caller : Fn) (b i : Nat) (callee : Fn)
    (args : List Nat) (ctr : Nat) (p : Bool × Fn)
    (h : inlineFunctionBody caller b i callee args ctr = .ok p) :
    p.1 = true := by
  unfold inlineFunctionBody at h
  repeat' split at h
  all_goals try exact Except.noConfusion h
  all_goals try (injection h with h2; subst h2; rfl)
  all_goals exact generalPath_ok_true _ _ _ _ _ _ _ _ _ _ _ h

open SILInliner in
/-- C1 (amended): `inlineFunction` returns `false` with the caller left
unchanged exactly when the callee is the same function as the caller; asking
a mandatory-inlining pass to inline a callee with a foreign (C or
Objective-C) calling convention into a different function is a fatal
assertion failure, not a `false` return. -/
theorem C1_refusal_exactly_self_inline (caller : Fn) (b i : Nat) (callee : Fn)
    (args : List Nat) (kind : InlineKind) (ctr : Nat) :
    (∀ F', inlineFunction caller b i callee args kind ctr = .ok (false, F') ↔
      (caller.name = callee.name ∧ F' = caller))
    ∧ ((callee.cc = .objCMethod ∨ callee.cc = .c) → kind = .mandatoryInline →
        caller.name ≠ callee.name →
        inlineFunction caller b i callee args kind ctr = .error ()) := by
  constructor
  · intro F'
    constructor
    · intro h
      unfold inlineFunction at h
      by_cases hn : caller.name = callee.name
      · rw [if_pos hn] at h
        injection h with h2
        exact ⟨hn, (Prod.mk.injEq _ _ _ _ ▸ h2).2.symm⟩
      · rw [if_neg hn] at h
        by_cases hcc : (callee.cc = .objCMethod ∨ callee.cc = .c) ∧
            ¬ kind = .performanceInline
        · rw [if_pos hcc] at h
          exact Except.noConfusion h
        · rw [if_neg hcc] at h
          exact Bool.noConfusion (inlineFunctionBody_ok_true _ _ _ _ _ _ _ h)
    · rintro ⟨h1, h2⟩
      subst h2
      unfold inlineFunction
      rw [if_pos h1]
  · intro hcc hk hn
    unfold inlineFunction
    rw [if_neg hn, if_pos ⟨hcc, by subst hk; exact fun hx => InlineKind.noConfusion hx⟩]

open SILInliner in
/-- C1 (counterexample): a mandatory-inlining pass asked to inline a
C-convention callee into a different caller does not return `false` with the
call site unchanged, as the claim demands — it trips the calling-convention
assertion (a fatal abort). -/
theorem C1_counterexample_foreign_mandatory_asserts :
    inlineFunction fnCaller 0 0 fnCalleeC [] .mandatoryInline 50 = .error ()
    ∧ inlineFunction fnCaller 0 0 fnCalleeC [] .mandatoryInline 50 ≠
        .ok (false, fnCaller) := by
  refine ⟨rfl, fun h => ?_⟩
  rw [show inlineFunction fnCaller 0 0 fnCalleeC [] .mandatoryInline 50 =
    .error () from rfl] at h
  exact Except.noConfusion h

open SILInliner in
/-- Witness for C1 (amended): inlining a function into itself is refused with
the caller unchanged, and the mandatory/foreign-convention combination on
distinct functions is an assertion failure. -/
theorem C1_refusal_exactly_self_inline_witness :
    inlineFunction fnCaller 0 0 fnCaller [] .performanceInline 50 =
      .ok (false, fnCaller)
    ∧ inlineFunction fnCaller 0 0 fnCalleeC [] .mandatoryInline 50 = .error () :=
  ⟨((C1_refusal_exactly_self_inline fnCaller 0 0 fnCaller [] .performanceInline
      50).1 fnCaller).mpr ⟨rfl, rfl⟩,
   (C1_refusal_exactly_self_inline fnCaller 0 0 fnCalleeC [] .mandatoryInline
      50).2 (Or.inr rfl) rfl (by decide)⟩

open SILInliner in
theorem fastPathResult_length (caller : Fn) (b i : Nat) (aiRes : Nat)
    (cloned : List SInst) (w : Nat) :
    (fastPathResult caller b i aiRes cloned w).blocks.length =
      caller.blocks.length := by
  simp [fastPathResult, updateFn, substFn]

open SILInliner in
theorem substId_ne_old (old new : Nat) (hne : new ≠ old) (v : Nat) :
    substId old new v ≠ old := by
  unfold substId
  by_cases h : (v == old) = true
  · rw [if_pos h]
    exact hne
  · rw [if_neg h]
    exact fun he => h (by simp [he])

open SILInliner in
theorem contains_map_substId (old new : Nat) (hne : new ≠ old)
    (l : List Nat) : (l.map (substId old new)).contains old = false := by
  induction l with
  | nil => rfl
  | cons a t ih =>
    rw [List.map_cons, List.contains_cons, ih]
    have := substId_ne_old old new hne a
    simp [this.symm]

open SILInliner in
theorem termUses_substTerm (old new : Nat) (hne : new ≠ old) (t : STerm) :
    termUses old (substTerm old new t) = false := by
  cases t <;>
    simp [substTerm, termUses, contains_map_substId old new hne,
      substId_ne_old old new hne]

open SILInliner in
theorem blockUses_substBlock (old new : Nat) (hne : new ≠ old) (blk : SBlock) :
    blockUses old (substBlock old new blk) = false := by
  unfold blockUses substBlock
  rw [termUses_substTerm old new hne]
  simp only [Bool.or_false, List.any_map, List.any_eq_false]
  intro I _
  simp only [Function.comp, substInst]
  rw [contains_map_substId old new hne]
  simp

open SILInliner in
theorem blockUses_eraseInsts (v : Nat) (blk : SBlock) (i : Nat)
    (h : blockUses v blk = false) :
    blockUses v ⟨blk.params, blk.insts.eraseIdx i, blk.term⟩ = false := by
  unfold blockUses at h ⊢
  simp only [Bool.or_eq_false_iff] at h ⊢
  refine ⟨?_, h.2⟩
  rw [List.any_eq_false] at h ⊢
  intro I hI
  exact h.1 I (mem_eraseIdx_mem _ _ _ hI)

open SILInliner in
/-- After the fast path, no operand edge of the caller points at the erased
apply's result (all uses were redirected to the remapped return operand). -/
theorem fnUsesValue_fastPathResult (caller : Fn) (b i : Nat) (aiRes : Nat)
    (cloned : List SInst) (w : Nat) (hne : w ≠ aiRes) :
    fnUsesValue (fastPathResult caller b i aiRes cloned w) aiRes = false := by
  have key : ∀ q ∈ (fastPathResult caller b i aiRes cloned w).blocks,
      blockUses aiRes q.2 = false := by
    intro q hq
    simp only [fastPathResult, updateFn, substFn, List.map_map,
      List.mem_map] at hq
    obtain ⟨a, ha, rfl⟩ := hq
    simp only [Function.comp]
    by_cases h : (a.1 == b) = true
    · simp only [h, if_true]
      exact blockUses_eraseInsts _ _ _ (blockUses_substBlock _ _ hne _)
    · simp [h, blockUses_substBlock _ _ hne]
  unfold fnUsesValue
  rw [List.any_eq_false]
  intro q hq
  simp [key q hq]

open SILInliner in
/-- C2: when the callee's entry block terminates in `return r` (and the
inliner neither refuses nor asserts), `inlineFunction` succeeds with `true`
and the caller becomes `fastPathResult`: the cloned entry body is spliced
after the apply, every use of the apply is replaced by the return operand
remapped through the value map, and the apply is erased.  The caller block
is not split (the block count is unchanged), and no operand edge still
points at the erased apply's result. -/
theorem C2_fast_path_return (caller : Fn) (b i : Nat) (callee : Fn)
    (args : List Nat) (kind : InlineKind) (ctr : Nat) (eid : Nat)
    (entry cblk : SBlock) (r : Nat) (ai : SInst) (cloned : List SInst)
    (vm : List (Nat × Nat)) (ctr2 : Nat)
    (hname : ¬ caller.name = callee.name)
    (hcc : ¬ ((callee.cc = .objCMethod ∨ callee.cc = .c) ∧
        ¬ kind = .performanceInline))
    (hentry : callee.blocks.head? = some (eid, entry))
    (harity : entry.params.length = args.length)
    (hblk : findBlock caller b = some cblk)
    (hai : cblk.insts.get? i = some ai)
    (hclone : cloneInsts entry.insts (entry.params.zip args) ctr =
      (cloned, vm, ctr2))
    (hterm : entry.term = .ret r) :
    inlineFunction caller b i callee args kind ctr =
      .ok (true, fastPathResult caller b i ai.res cloned (remapValue vm r))
    ∧ (fastPathResult caller b i ai.res cloned (remapValue vm r)).blocks.length =
        caller.blocks.length
    ∧ (remapValue vm r ≠ ai.res →
        fnUsesValue (fastPathResult caller b i ai.res cloned (remapValue vm r))
          ai.res = false) := by
  refine ⟨?_, fastPathResult_length _ _ _ _ _ _,
    fun hne => fnUsesValue_fastPathResult _ _ _ _ _ _ hne⟩
  unfold inlineFunction
  rw [if_neg hname, if_neg hcc]
  unfold inlineFunctionBody
  rw [hentry]
  simp only []
  rw [if_neg (by simp [harity])]
  rw [hblk]
  simp only []
  rw [hai]
  simp only []
  rw [hclone]
  simp only []
  rw [hterm]

open SILInliner in
/-- Witness for C2: inlining a concrete one-block callee whose entry returns
its single computed value into a concrete one-apply caller. -/
theorem C2_fast_path_return_witness :
    inlineFunction fnCaller 0 0 fnCallee [7] .performanceInline 100 =
      .ok (true, fastPathResult fnCaller 0 0 20 [⟨100, 5, [7]⟩] 100)
    ∧ (fastPathResult fnCaller 0 0 20 [⟨100, 5, [7]⟩] 100).blocks.length =
        fnCaller.blocks.length
    ∧ fnUsesValue (fastPathResult fnCaller 0 0 20 [⟨100, 5, [7]⟩] 100) 20 =
        false := by
  have h := C2_fast_path_return fnCaller 0 0 fnCallee [7] .performanceInline
    100 0 ⟨[10], [⟨11, 5, [10]⟩], .ret 11⟩ ⟨[], [⟨20, 1, [2, 3]⟩], .unreachable⟩
    11 ⟨20, 1, [2, 3]⟩ [⟨100, 5, [7]⟩] [(11, 100), (10, 7)] 101
    (by decide) (by decide) rfl rfl rfl rfl rfl rfl
  exact ⟨h.1, h.2.1, h.2.2 (by decide)⟩
